import Mathlib

/-!
Verification development for the geoshapes request pipeline
(GeoShapes class: request normalization, graph query runner,
property sanitizer, spatial query runner, result assembler,
format encoder).  JavaScript values that flow through the
pipeline are embedded as the inductive type JVal; JavaScript
objects are embedded as association lists with unique-key
update semantics (setKey), matching object assignment,
deletion and lookup.
-/

/-- Embedding of the JavaScript values that occur in this pipeline:
undefined, strings, numbers, parsed coordinate pairs, string arrays
(the id list passed to the spatial store) and raw SPARQL binding
objects carrying a type tag and a value. -/
inductive JVal where
  | undef
  | str (s : String)
  | num (n : Int)
  | coord (lon lat : Int)
  | strArr (xs : List String)
  | wdObj (typ val : String)
deriving DecidableEq

/-- JavaScript truthiness for the embedded values: undefined, the empty
string and the number 0 are falsy; objects and arrays are always truthy. -/
def truthy : JVal → Bool
  | .undef => false
  | .str s => !(s == "")
  | .num n => !(n == 0)
  | .coord _ _ => true
  | .strArr _ => true
  | .wdObj _ _ => true

/-- Lookup of a key in an object embedded as an association list
(first binding wins, as JavaScript objects have unique keys). -/
def jlookup {α : Type} (l : List (String × α)) (k : String) : Option α :=
  (l.find? (fun kv => kv.1 == k)).map (fun kv => kv.2)

/-- JavaScript property assignment obj[k] = v: replace the binding in
place when the key is present, append it otherwise. -/
def setKey {α : Type} : List (String × α) → String → α → List (String × α)
  | [], k, v => [(k, v)]
  | (k1, v1) :: rest, k, v =>
    if k1 = k then (k, v) :: rest else (k1, v1) :: setKey rest k v

/-- JavaScript property deletion delete obj[k]. -/
def eraseKey {α : Type} (l : List (String × α)) (k : String) : List (String × α) :=
  l.filter (fun kv => !(kv.1 == k))

theorem jlookup_nil {α : Type} (k : String) : jlookup ([] : List (String × α)) k = none :=
  rfl

theorem jlookup_cons {α : Type} (k1 : String) (v1 : α) (rest : List (String × α))
    (k : String) :
    jlookup ((k1, v1) :: rest) k = if k1 = k then some v1 else jlookup rest k := by
  by_cases h : k1 = k
  · rw [if_pos h]
    unfold jlookup
    rw [List.find?_cons_of_pos _ (by simpa using h)]
    rfl
  · rw [if_neg h]
    unfold jlookup
    rw [List.find?_cons_of_neg _ (by simpa using h)]

theorem eraseKey_cons {α : Type} (k1 : String) (v1 : α) (rest : List (String × α))
    (k : String) :
    eraseKey ((k1, v1) :: rest) k =
      if k1 = k then eraseKey rest k else (k1, v1) :: eraseKey rest k := by
  by_cases h : k1 = k <;> simp [eraseKey, List.filter_cons, h]

theorem jlookup_eraseKey_self {α : Type} (l : List (String × α)) (k : String) :
    jlookup (eraseKey l k) k = none := by
  induction l with
  | nil => rfl
  | cons kv rest ih =>
    rw [show kv = (kv.1, kv.2) from rfl, eraseKey_cons]
    by_cases h : kv.1 = k
    · rw [if_pos h]; exact ih
    · rw [if_neg h, jlookup_cons, if_neg h]; exact ih

theorem jlookup_eraseKey_ne {α : Type} (l : List (String × α)) (k k2 : String)
    (h : k ≠ k2) : jlookup (eraseKey l k2) k = jlookup l k := by
  induction l with
  | nil => rfl
  | cons kv rest ih =>
    rw [show kv = (kv.1, kv.2) from rfl, eraseKey_cons]
    by_cases h1 : kv.1 = k2
    · have h2 : ¬ kv.1 = k := by rw [h1]; exact fun hh => h hh.symm
      rw [if_pos h1, jlookup_cons, if_neg h2]; exact ih
    · rw [if_neg h1, jlookup_cons, jlookup_cons]
      by_cases h2 : kv.1 = k
      · rw [if_pos h2, if_pos h2]
      · rw [if_neg h2, if_neg h2]; exact ih

theorem jlookup_setKey_self {α : Type} (l : List (String × α)) (k : String) (v : α) :
    jlookup (setKey l k v) k = some v := by
  induction l with
  | nil => rw [setKey, jlookup_cons, if_pos rfl]
  | cons kv rest ih =>
    rw [show kv = (kv.1, kv.2) from rfl, setKey]
    by_cases h : kv.1 = k
    · rw [if_pos h, jlookup_cons, if_pos rfl]
    · rw [if_neg h, jlookup_cons, if_neg h]; exact ih

theorem jlookup_setKey_ne {α : Type} (l : List (String × α)) (k k2 : String) (v : α)
    (h : k ≠ k2) : jlookup (setKey l k2 v) k = jlookup l k := by
  have h3 : ¬ k2 = k := fun hh => h hh.symm
  induction l with
  | nil => rw [setKey, jlookup_cons, if_neg h3, jlookup_nil]
  | cons kv rest ih =>
    rw [show kv = (kv.1, kv.2) from rfl, setKey]
    by_cases h1 : kv.1 = k2
    · have h2 : ¬ kv.1 = k := by rw [h1]; exact h3
      rw [if_pos h1, jlookup_cons, if_neg h3, jlookup_cons, if_neg h2]
    · rw [if_neg h1, jlookup_cons, jlookup_cons]
      by_cases h2 : kv.1 = k
      · rw [if_pos h2, if_pos h2]
      · rw [if_neg h2, if_neg h2]; exact ih

/-- Error taxonomy of the pipeline.  Each constructor corresponds to one
throw site of the source; fields carry the data interpolated into the
message there (for missingIdColumn the Bool records whether the column
name was user-supplied, which selects the longer default-column message). -/
inductive GeoErr where
  | invalidInput
  | featureDisabled
  | tooManyIds (maxidcount : Nat)
  | invalidId (id : String)
  | unexpectedContentType
  | malformedGraphResponse
  | missingIdColumn (column : String) (customGiven : Bool)
  | invalidGraphId (column : String)
  | sanitizationError
  | invalidParam (name : String)
deriving DecidableEq

/-- Discriminator used to compare error shapes. -/
def GeoErr.isMissingIdColumn : GeoErr → Bool
  | .missingIdColumn _ _ => true
  | _ => false

/-- JavaScript falsiness of an optional request string: absent or empty. -/
def optStrFalsy : Option String → Bool
  | none => true
  | some s => s == ""

/-- Entity id grammar of the source, the regular expression
given by caret Q bracket 1-9 bracket bracket 0-9 bracket zero-to-15 dollar:
the letter Q, a nonzero digit, then at most 15 further digits. -/
def isValidWikidataId (s : String) : Bool :=
  match s.toList with
  | c :: d :: ds =>
    c == 'Q' && decide ('1' ≤ d) && decide (d ≤ '9') &&
      decide (ds.length ≤ 15) && ds.all Char.isDigit
  | _ => false

/-- The entity-id grammar as the spec words it: an uppercase letter
prefix followed by a positive integer with no leading zero and bounded
digit length. -/
def specIdGrammar (s : String) : Bool :=
  match s.toList with
  | c :: d :: ds =>
    c.isUpper && decide ('1' ≤ d) && decide (d ≤ '9') &&
      decide (ds.length ≤ 15) && ds.all Char.isDigit
  | _ => false

theorem valid_id_satisfies_grammar (s : String)
    (h : isValidWikidataId s = true) : specIdGrammar s = true := by
  unfold isValidWikidataId at h
  unfold specIdGrammar
  match hs : s.toList with
  | [] => rw [hs] at h; simp at h
  | [c] => rw [hs] at h; simp at h
  | c :: d :: ds =>
    rw [hs] at h
    simp only [Bool.and_eq_true, beq_iff_eq, decide_eq_true_eq] at h
    obtain ⟨⟨⟨⟨hc, h1⟩, h9⟩, hlen⟩, hall⟩ := h
    subst hc
    simp [h1, h9, hlen, hall]

/-- The split of a string on the comma character, JavaScript split
semantics: the text between consecutive separators, including leading,
trailing and adjacent empties.  The accumulator holds the current token
in reverse. -/
def splitCommaAux : List Char → List Char → List String
  | [], acc => [⟨acc.reverse⟩]
  | c :: cs, acc =>
    if c = ',' then (⟨acc.reverse⟩ : String) :: splitCommaAux cs []
    else splitCommaAux cs (c :: acc)

/-- The comma split of a string. -/
def splitComma (s : String) : List String :=
  splitCommaAux s.toList []

/-- First-occurrence deduplication with an accumulator of already-seen
elements. -/
def dedupFirstAux : List String → List String → List String
  | [], _ => []
  | x :: xs, seen =>
    if x ∈ seen then dedupFirstAux xs seen
    else x :: dedupFirstAux xs (x :: seen)

/-- First-occurrence deduplication, the semantics of building a
JavaScript Set from a list and iterating it in insertion order. -/
def dedupFirst (l : List String) : List String :=
  dedupFirstAux l []

theorem mem_dedupFirstAux (l : List String) :
    ∀ (seen : List String) (a : String),
      a ∈ dedupFirstAux l seen ↔ a ∈ l ∧ a ∉ seen := by
  induction l with
  | nil => intro seen a; simp [dedupFirstAux]
  | cons x xs ih =>
    intro seen a
    rw [dedupFirstAux]
    by_cases hx : x ∈ seen
    · rw [if_pos hx, ih]
      constructor
      · exact fun ⟨h1, h2⟩ => ⟨List.mem_cons_of_mem _ h1, h2⟩
      · rintro ⟨h1, h2⟩
        rcases List.mem_cons.mp h1 with h1 | h1
        · exact absurd (h1 ▸ hx) h2
        · exact ⟨h1, h2⟩
    · rw [if_neg hx]
      have hxs : x ∉ seen := hx
      constructor
      · intro h
        rcases List.mem_cons.mp h with h | h
        · exact ⟨h ▸ List.mem_cons_self _ _, h ▸ hxs⟩
        · have := (ih _ _).mp h
          exact ⟨List.mem_cons_of_mem _ this.1,
            fun hc => this.2 (List.mem_cons_of_mem _ hc)⟩
      · rintro ⟨h1, h2⟩
        rcases List.mem_cons.mp h1 with h1 | h1
        · exact h1 ▸ List.mem_cons_self _ _
        · by_cases hax : a = x
          · exact hax ▸ List.mem_cons_self _ _
          · exact List.mem_cons_of_mem _ ((ih _ _).mpr
              ⟨h1, fun hc => (List.mem_cons.mp hc).elim hax h2⟩)

theorem mem_dedupFirst (l : List String) (a : String) :
    a ∈ dedupFirst l ↔ a ∈ l := by
  rw [dedupFirst, mem_dedupFirstAux]
  simp

theorem nodup_dedupFirstAux (l : List String) :
    ∀ seen : List String, (dedupFirstAux l seen).Nodup := by
  induction l with
  | nil => intro seen; simp [dedupFirstAux]
  | cons x xs ih =>
    intro seen
    rw [dedupFirstAux]
    by_cases hx : x ∈ seen
    · rw [if_pos hx]; exact ih seen
    · rw [if_neg hx]
      refine List.nodup_cons.mpr ⟨?_, ih _⟩
      intro hmem
      exact ((mem_dedupFirstAux _ _ _).mp hmem).2 (List.mem_cons_self _ _)

theorem nodup_dedupFirst (l : List String) : (dedupFirst l).Nodup :=
  nodup_dedupFirstAux l []

/-- Decidable equality of results, so that concrete runs of the
pipeline stages can be checked by evaluation. -/
def exceptDecEq {ε α : Type} [DecidableEq ε] [DecidableEq α] :
    (x y : Except ε α) → Decidable (x = y)
  | .ok a, .ok b =>
    if h : a = b then .isTrue (by rw [h])
    else .isFalse (by intro hh; injection hh; contradiction)
  | .error a, .error b =>
    if h : a = b then .isTrue (by rw [h])
    else .isFalse (by intro hh; injection hh; contradiction)
  | .ok _, .error _ => .isFalse (by intro hh; injection hh)
  | .error _, .ok _ => .isFalse (by intro hh; injection hh)

instance {ε α : Type} [DecidableEq ε] [DecidableEq α] : DecidableEq (Except ε α) :=
  exceptDecEq

/-- Raw request parameters as they arrive from the router. -/
structure ReqParams where
  ids : Option String := none
  query : Option String := none
  idcolumn : Option String := none
  getgeojson : Bool := false
  sql : Option String := none
deriving DecidableEq

/-- The normalized request produced by parseParams. -/
structure ParsedParams where
  sparqlQuery : Option String
  ids : List String
  idColumn : Option String
  useGeoJson : Bool
  queryName : Option String
deriving DecidableEq

/-- The deduplicated non-empty comma-separated tokens of the id string:
the source builds a Set from the split (first-occurrence order) and then
deletes the empty string from it. -/
def normalizedIds (s : String) : List String :=
  (dedupFirst (splitComma s)).filter (fun id => !(id == ""))

/-- Request normalizer.  Mirrors the underscore-parseParams method of the
source line by line: requires ids or query, requires the query service
when a query is given, splits and deduplicates ids, enforces the maximum
count, then validates every id against the entity-id grammar in set
iteration order. -/
def parseParams (maxidcount : Nat) (hasQueryService : Bool) (p : ReqParams) :
    Except GeoErr ParsedParams :=
  if optStrFalsy p.ids && optStrFalsy p.query then .error .invalidInput
  else if !optStrFalsy p.query && !hasQueryService then .error .featureDisabled
  else
    let ids := if optStrFalsy p.ids then [] else normalizedIds (p.ids.getD "")
    if ids.length > maxidcount then .error (.tooManyIds maxidcount)
    else
      match ids.find? (fun id => !isValidWikidataId id) with
      | some bad => .error (.invalidId bad)
      | none => .ok { sparqlQuery := p.query, ids := ids, idColumn := p.idcolumn,
                      useGeoJson := p.getgeojson, queryName := p.sql }

/-- C5: request normalization splits the raw id string on commas, discards
empty tokens and deduplicates; when the deduplicated ids are all
grammar-valid and number at most the configured maximum it succeeds with
exactly the deduplication of the input, and whenever the deduplicated
count exceeds the maximum it fails with tooManyIds. -/
theorem parseParams_normalization (maxidcount : Nat) (svc : Bool) (s : String)
    (hs : s ≠ "") :
    ((normalizedIds s).length ≤ maxidcount →
      (∀ id ∈ normalizedIds s, isValidWikidataId id = true) →
      parseParams maxidcount svc { ids := some s } =
        .ok { sparqlQuery := none, ids := normalizedIds s, idColumn := none,
              useGeoJson := false, queryName := none } ∧
      (normalizedIds s).Nodup ∧
      (∀ x, x ∈ normalizedIds s ↔ x ∈ splitComma s ∧ x ≠ "")) ∧
    ((normalizedIds s).length > maxidcount →
      parseParams maxidcount svc { ids := some s } =
        .error (.tooManyIds maxidcount)) := by
  have h0 : optStrFalsy (some s) = false := by simp [optStrFalsy, hs]
  constructor
  · intro hlen hvalid
    have hfind : (normalizedIds s).find? (fun id => !isValidWikidataId id) = none := by
      rw [List.find?_eq_none]
      intro x hx
      simp [hvalid x hx]
    refine ⟨?_, ?_, ?_⟩
    · simp [parseParams, h0, optStrFalsy, hs, Nat.not_lt.mpr hlen, hfind]
    · exact (nodup_dedupFirst _).filter _
    · intro x
      simp [normalizedIds, List.mem_filter, mem_dedupFirst]
  · intro hgt
    simp [parseParams, h0, optStrFalsy, hs, hgt]

theorem parseParams_normalization_witness :
    parseParams 10 false { ids := some "Q1,Q2,Q1," } =
      .ok { sparqlQuery := none, ids := normalizedIds "Q1,Q2,Q1,", idColumn := none,
            useGeoJson := false, queryName := none } ∧
    parseParams 1 false { ids := some "Q1,Q2" } = .error (.tooManyIds 1) :=
  ⟨((parseParams_normalization 10 false "Q1,Q2,Q1," (by decide)).1
      (by decide) (by decide)).1,
   (parseParams_normalization 1 false "Q1,Q2" (by decide)).2 (by decide)⟩

/-- C6: when the deduplicated ids fit under the maximum and some
deduplicated token violates the entity-id grammar of the spec (uppercase
letter prefix, then a positive integer without leading zero, bounded
digit length), normalization fails with invalidId; lowercase prefix,
leading zero and zero value all violate that grammar. -/
theorem parseParams_invalid_id (maxidcount : Nat) (svc : Bool) (s : String)
    (hs : s ≠ "") (hlen : (normalizedIds s).length ≤ maxidcount)
    (hbad : ∃ t ∈ normalizedIds s, specIdGrammar t = false) :
    (∃ bad ∈ normalizedIds s, isValidWikidataId bad = false ∧
      parseParams maxidcount svc { ids := some s } = .error (.invalidId bad)) ∧
    specIdGrammar "q1" = false ∧ specIdGrammar "Q01" = false ∧
    specIdGrammar "Q0" = false ∧ specIdGrammar "Q12" = true := by
  have h0 : optStrFalsy (some s) = false := by simp [optStrFalsy, hs]
  obtain ⟨t, ht, hg⟩ := hbad
  have hbadv : isValidWikidataId t = false := by
    cases hv : isValidWikidataId t
    · rfl
    · exact absurd (valid_id_satisfies_grammar t hv) (by simp [hg])
  have hsome : ((normalizedIds s).find? (fun id => !isValidWikidataId id)).isSome := by
    rw [List.find?_isSome]
    exact ⟨t, ht, by simp [hbadv]⟩
  obtain ⟨bad, hfind⟩ := Option.isSome_iff_exists.mp hsome
  have hmem := List.mem_of_find?_eq_some hfind
  have hpred := List.find?_some hfind
  have hbadval : isValidWikidataId bad = false := by simpa using hpred
  refine ⟨⟨bad, hmem, hbadval, ?_⟩, by decide, by decide, by decide, by decide⟩
  simp [parseParams, h0, optStrFalsy, hs, Nat.not_lt.mpr hlen, hfind]

theorem parseParams_invalid_id_witness :
    ∃ bad ∈ normalizedIds "q1,Q2", isValidWikidataId bad = false ∧
      parseParams 10 false { ids := some "q1,Q2" } = .error (.invalidId bad) :=
  (parseParams_invalid_id 10 false "q1,Q2" (by decide) (by decide)
    ⟨"q1", by decide, by decide⟩).1

/-- The float regular expression of the source, dash-question
digits-plus optional-fraction, applied by test without anchors: an
unanchored match exists exactly when the string contains a decimal
digit, because a single digit already matches and any match must
contain a digit. -/
def floatRegexTest (s : String) : Bool :=
  s.toList.any Char.isDigit

/-- The strict numeric-literal grammar the spec intends: the whole string
is an optional minus sign, a nonempty integer part, and an optional
nonempty all-digit fractional part, nothing else (the float regular
expression anchored on both sides). -/
def isStrictNumeric (s : String) : Bool :=
  let cs := match s.toList with
            | '-' :: rest => rest
            | other => other
  let intPart := cs.takeWhile Char.isDigit
  let rest := cs.dropWhile Char.isDigit
  !intPart.isEmpty &&
    (match rest with
     | [] => true
     | '.' :: frac => !frac.isEmpty && frac.all Char.isDigit
     | _ => false)

/-- A declared template parameter of a configured SQL query: an optional
name (a nameless parameter always uses its default) and a default value. -/
structure ParamSpec where
  name : Option String
  default : JVal
deriving DecidableEq

/-- The argument contributed by one declared template parameter, from the
source: when the parameter has no usable name, or the request supplies no
truthy value for it, the default is pushed; otherwise the supplied value
is pushed unless the float regular expression test holds for it, in which
case the runner throws invalidParam.  The test is unanchored and the
branch is inverted, so values containing any digit are rejected and
all-symbolic values are accepted. -/
def paramArg (param : ParamSpec) (rawParams : List (String × String)) :
    Except GeoErr JVal :=
  if optStrFalsy param.name then .ok param.default
  else
    let n := param.name.getD ""
    match jlookup rawParams n with
    | none => .ok param.default
    | some value =>
      if value = "" then .ok param.default
      else if floatRegexTest value then .error (.invalidParam n)
      else .ok (.str value)

/-- The extra positional arguments built from the declared template
parameters, in declaration order, stopping at the first failure. -/
def buildSqlArgs : List ParamSpec → List (String × String) → Except GeoErr (List JVal)
  | [], _ => .ok []
  | param :: rest, rawParams =>
    match paramArg param rawParams with
    | .error e => .error e
    | .ok a =>
      match buildSqlArgs rest rawParams with
      | .error e => .error e
      | .ok more => .ok (a :: more)

/-- What the spatial query runner does before touching the database:
either a local empty result (point kind or empty id set) or a query
execution with the selected table, the id list and the template
arguments. -/
inductive SqlAction where
  | localEmpty
  | runQuery (table : String) (ids : List String) (args : List JVal)
deriving DecidableEq

/-- The spatial query runner, to the point of contacting the store. -/
def runSqlQuery (type : String) (ids : List String) (params : List ParamSpec)
    (rawParams : List (String × String)) (polygonTable lineTable : String) :
    Except GeoErr SqlAction :=
  if ids.isEmpty || (type == "geopoint") then .ok .localEmpty
  else
    match buildSqlArgs params rawParams with
    | .error e => .error e
    | .ok extra =>
      .ok (.runQuery (if type == "geoshape" then polygonTable else lineTable) ids extra)

/-- C1: the parameter validation of the spatial query runner is inverted
and unanchored with respect to the claim.  The supplied value 0.5 matches
the strict numeric-literal grammar yet the runner fails with invalidParam
on it; the supplied value abc fails the grammar yet is passed through to
the query arguments; the default is used when no value is supplied and
when the parameter is nameless. -/
theorem sqlParam_validation_inverted :
    isStrictNumeric "0.5" = true ∧
    buildSqlArgs [⟨some "tolerance", JVal.num 1⟩] [("tolerance", "0.5")] =
      .error (.invalidParam "tolerance") ∧
    isStrictNumeric "abc" = false ∧
    buildSqlArgs [⟨some "tolerance", JVal.num 1⟩] [("tolerance", "abc")] =
      .ok [JVal.str "abc"] ∧
    buildSqlArgs [⟨some "tolerance", JVal.num 1⟩] [] = .ok [JVal.num 1] ∧
    buildSqlArgs [⟨none, JVal.num 1⟩] [("tolerance", "0.5")] = .ok [JVal.num 1] ∧
    runSqlQuery "geopoint" ["Q1"] [] [] "polygons" "lines" = .ok .localEmpty := by
  decide

/-- The effect of the graph query stage on the configured headers: the
source merges the client IP header into config.sparqlHeaders with an
in-place object assignment whose target is the configuration object
itself, so after the call config.sparqlHeaders is this merged object. -/
def sparqlHeadersAfterExecute (sparqlHeaders : List (String × String))
    (xClientIp : String) : List (String × String) :=
  setKey sparqlHeaders "X-Client-IP" xClientIp

/-- C2: executing a request does not leave config.sparqlHeaders unchanged:
running the graph query stage with client IP 10.0.0.1 adds the pair
X-Client-IP, 10.0.0.1 to the configured header object, which therefore
differs from its pre-request value. -/
theorem config_sparqlHeaders_mutated :
    sparqlHeadersAfterExecute [("User-Agent", "kartotherian")] "10.0.0.1" =
      [("User-Agent", "kartotherian"), ("X-Client-IP", "10.0.0.1")] ∧
    sparqlHeadersAfterExecute [("User-Agent", "kartotherian")] "10.0.0.1" ≠
      [("User-Agent", "kartotherian")] ∧
    jlookup (sparqlHeadersAfterExecute [("User-Agent", "kartotherian")] "10.0.0.1")
      "X-Client-IP" = some "10.0.0.1" := by
  decide

/-- The tail of a string after its final slash (the whole string when
there is no slash); accumulator in reverse. -/
def afterLastSlashAux : List Char → List Char → List Char
  | [], acc => acc.reverse
  | c :: cs, acc =>
    if c = '/' then afterLastSlashAux cs []
    else afterLastSlashAux cs (c :: acc)

/-- The tail of a string after its final slash. -/
def afterLastSlash (s : String) : String :=
  ⟨afterLastSlashAux s.toList []⟩

/-- Modelled from the spec: the external wd-type-parser module (a
dependency, not part of this repository) normalizes a graph-query
binding; per the spec a URI-typed value parses to the entity id ending
the URI, other bindings pass through as their plain literal value, and
already-plain values are unchanged. -/
def parseWikidataValue : JVal → JVal
  | .wdObj "uri" v => .str (afterLastSlash v)
  | .wdObj _ v => .str v
  | v => v

/-- The type tag of a raw binding object, undefined otherwise. -/
def wdTypeOf : JVal → Option String
  | .wdObj t _ => some t
  | _ => none

/-- The id column in effect: the custom column when it is a truthy
string, the default column id otherwise. -/
def effectiveIdColumn (custom : Option String) : String :=
  match custom with
  | some c => if c = "" then "id" else c
  | none => "id"

/-- Whether the request supplied the id column name (decides which of the
two missing-column messages is produced). -/
def customIdGiven (custom : Option String) : Bool :=
  !optStrFalsy custom

/-- Handler for one graph query result row, from the source: require the
effective id column, move its parsed value into the id property, fail
when the parsed id is falsy or the binding is not URI-typed, and attach
a parsed coordinate when a truthy geo column is present.  The geo column
is read from the original row, which also keeps its raw geo binding. -/
def processResultRow (custom : Option String) (wd : List (String × JVal)) :
    Except GeoErr (List (String × JVal)) :=
  let idColumn := effectiveIdColumn custom
  match jlookup wd idColumn with
  | none => .error (.missingIdColumn idColumn (customIdGiven custom))
  | some value =>
    let result := setKey (eraseKey wd idColumn) "id" (parseWikidataValue value)
    if !truthy (parseWikidataValue value) || !(wdTypeOf value == some "uri") then
      .error (.invalidGraphId idColumn)
    else
      match jlookup wd "geo" with
      | some g =>
        if truthy g then .ok (setKey result "coordinate" (parseWikidataValue g))
        else .ok result
      | none => .ok result

/-- C7 counterexample: a row whose id column is present but literal-typed
is rejected with invalidGraphId, which is not the missingIdColumn error
the claim names for this case. -/
theorem processResultRow_nonuri_counterexample :
    processResultRow none [("id", JVal.wdObj "literal" "Q1")] =
      .error (.invalidGraphId "id") ∧
    GeoErr.isMissingIdColumn (.invalidGraphId "id") = false := by
  decide

/-- C7 (amended): a missing id column fails with missingIdColumn carrying
the flag that distinguishes a user-supplied column name from the default;
a present id column whose value is not URI-typed or does not parse to a
truthy entity id fails with invalidGraphId; and a present URI-typed
parseable id column succeeds with the parsed id stored in the id
property. -/
theorem processResultRow_id_validation (custom : Option String)
    (wd : List (String × JVal)) :
    (jlookup wd (effectiveIdColumn custom) = none →
      processResultRow custom wd =
        .error (.missingIdColumn (effectiveIdColumn custom) (customIdGiven custom))) ∧
    (∀ v, jlookup wd (effectiveIdColumn custom) = some v →
      (truthy (parseWikidataValue v) = false ∨ wdTypeOf v ≠ some "uri") →
      processResultRow custom wd = .error (.invalidGraphId (effectiveIdColumn custom))) ∧
    (∀ v, jlookup wd (effectiveIdColumn custom) = some v →
      truthy (parseWikidataValue v) = true → wdTypeOf v = some "uri" →
      ∃ out, processResultRow custom wd = .ok out ∧
        jlookup out "id" = some (parseWikidataValue v)) := by
  refine ⟨?_, ?_, ?_⟩
  · intro h
    simp [processResultRow, h]
  · intro v hv hbad
    rcases hbad with hb | hb
    · simp [processResultRow, hv, hb]
    · have hb2 : (wdTypeOf v == some "uri") = false := by
        simpa using hb
      simp [processResultRow, hv, hb2]
  · intro v hv ht hu
    have hcond : (!truthy (parseWikidataValue v) || !(wdTypeOf v == some "uri")) = false := by
      simp [ht, hu]
    cases hg : jlookup wd "geo" with
    | none =>
      refine ⟨setKey (eraseKey wd (effectiveIdColumn custom)) "id" (parseWikidataValue v),
        ?_, jlookup_setKey_self _ _ _⟩
      simp [processResultRow, hv, hcond, hg]
    | some g =>
      by_cases htg : truthy g
      · refine ⟨setKey (setKey (eraseKey wd (effectiveIdColumn custom)) "id"
          (parseWikidataValue v)) "coordinate" (parseWikidataValue g), ?_, ?_⟩
        · simp [processResultRow, hv, hcond, hg, htg]
        · rw [jlookup_setKey_ne _ _ _ _ (by decide)]
          exact jlookup_setKey_self _ _ _
      · refine ⟨setKey (eraseKey wd (effectiveIdColumn custom)) "id" (parseWikidataValue v),
          ?_, jlookup_setKey_self _ _ _⟩
        simp [processResultRow, hv, hcond, hg, htg]

theorem processResultRow_id_validation_witness :
    processResultRow (some "item") [("x", JVal.str "y")] =
      .error (.missingIdColumn "item" true) ∧
    processResultRow none [("id", JVal.wdObj "uri" "http://wd/")] =
      .error (.invalidGraphId "id") :=
  ⟨(processResultRow_id_validation (some "item") _).1 (by decide),
   (processResultRow_id_validation none _).2.1 (JVal.wdObj "uri" "http://wd/")
     (by decide) (Or.inl (by decide))⟩

/-- The VALUES tokens of the synthesized points query: each explicit id
prefixed with the wd namespace. -/
def sparqlValuesTokens (ids : List String) : List String :=
  ids.map (fun id => "wd:" ++ id)

/-- The default points query of the source: select id and geometry
literal for exactly the given ids via the configured coordinate
relation. -/
def createPointsSparqlQuery (coordinatePredicateId : String) (ids : List String) :
    String :=
  "SELECT ?id ?geo WHERE \x7b VALUES ?id \x7b " ++
    String.intercalate " " (sparqlValuesTokens ids) ++
    " \x7d ?id " ++ coordinatePredicateId ++ " ?geo \x7d"

/-- What the graph query runner does before any network activity: either
return an empty row set locally or send a query to the endpoint. -/
inductive WdqAction where
  | localEmpty
  | sendQuery (q : String)
deriving DecidableEq

/-- The query-selection step of the graph query runner, from the source:
with no truthy query, a nonempty id list of point kind synthesizes the
default points query; any remaining falsy query short-circuits to a
local empty row set without contacting the endpoint. -/
def runWikidataQueryAction (type : String) (query : Option String)
    (ids : List String) (coordinatePredicateId : String) : WdqAction :=
  let q := if optStrFalsy query && !ids.isEmpty && (type == "geopoint")
           then some (createPointsSparqlQuery coordinatePredicateId ids)
           else query
  match q with
  | none => .localEmpty
  | some s => if s = "" then .localEmpty else .sendQuery s

theorem wd_prefix_inj (a b : String) (h : "wd:" ++ a = "wd:" ++ b) : a = b := by
  have hd := congrArg String.data h
  rw [String.data_append, String.data_append] at hd
  have hc := List.append_cancel_left hd
  cases a; cases b; exact congrArg String.mk hc

theorem createPointsSparqlQuery_ne_empty (pred : String) (ids : List String) :
    createPointsSparqlQuery pred ids ≠ "" := by
  intro h
  have h1 := congrArg String.length h
  rw [createPointsSparqlQuery, String.length_append, String.length_append,
    String.length_append, String.length_append] at h1
  have h3 : 0 < String.length "SELECT ?id ?geo WHERE \x7b VALUES ?id \x7b " := by
    decide
  have h4 : String.length "" = 0 := rfl
  rw [h4] at h1
  omega

/-- C8: with no explicit query, point kind and a nonempty id set
synthesize and send the default points query, whose VALUES tokens are
exactly the wd-prefixed explicit ids; with no query and no default
applying (non-point kind, or an empty id set), the runner returns an
empty row set locally, never contacting the endpoint. -/
theorem runWikidataQuery_default_query (type : String) (query : Option String)
    (ids : List String) (pred : String) :
    (type = "geopoint" → ids ≠ [] → optStrFalsy query = true →
      runWikidataQueryAction type query ids pred =
        .sendQuery (createPointsSparqlQuery pred ids)) ∧
    (∀ id, ("wd:" ++ id) ∈ sparqlValuesTokens ids ↔ id ∈ ids) ∧
    (optStrFalsy query = true → (type ≠ "geopoint" ∨ ids = []) →
      runWikidataQueryAction type query ids pred = .localEmpty) := by
  refine ⟨?_, ?_, ?_⟩
  · intro ht hids hq
    subst ht
    have hne : ids.isEmpty = false := by
      cases ids with
      | nil => exact absurd rfl hids
      | cons x xs => rfl
    simp [runWikidataQueryAction, hq, hne, createPointsSparqlQuery_ne_empty pred ids]
  · intro id
    constructor
    · intro h
      obtain ⟨b, hb, heq⟩ := List.mem_map.mp h
      exact (wd_prefix_inj b id heq) ▸ hb
    · intro h
      exact List.mem_map.mpr ⟨id, h, rfl⟩
  · intro hq hcase
    have hqf : (if optStrFalsy query && !ids.isEmpty && (type == "geopoint")
        then some (createPointsSparqlQuery pred ids) else query) = query := by
      rcases hcase with hc | hc
      · have hc2 : (type == "geopoint") = false := by simpa using hc
        simp [hc2]
      · subst hc
        simp
    rw [runWikidataQueryAction]
    rw [hqf]
    cases query with
    | none => rfl
    | some s =>
      have hs : s = "" := by simpa [optStrFalsy] using hq
      simp [hs]

theorem runWikidataQuery_default_query_witness :
    runWikidataQueryAction "geopoint" none ["Q1", "Q2"] "wdt:P625" =
      .sendQuery (createPointsSparqlQuery "wdt:P625" ["Q1", "Q2"]) ∧
    (("wd:" ++ "Q1") ∈ sparqlValuesTokens ["Q1", "Q2"] ↔ "Q1" ∈ ["Q1", "Q2"]) ∧
    runWikidataQueryAction "geoline" none ["Q1"] "wdt:P625" = .localEmpty :=
  ⟨(runWikidataQuery_default_query "geopoint" none ["Q1", "Q2"] "wdt:P625").1
     rfl (by decide) rfl,
   (runWikidataQuery_default_query "geopoint" none ["Q1", "Q2"] "wdt:P625").2.1 "Q1",
   (runWikidataQuery_default_query "geoline" none ["Q1"] "wdt:P625").2.2
     rfl (Or.inl (by decide))⟩

/-- A GeoJSON geometry as this pipeline produces it: either a point
whose coordinates come from a property column, or the value of
JSON.parse applied to the serialized geometry of a spatial-store row
(the parse is abstracted as a tag on the raw text, which determines
it; no claim depends on the parsed structure). -/
inductive Geometry where
  | point (coords : JVal)
  | parsedJson (raw : String)
deriving DecidableEq

/-- A placeholder feature sent to the sanitization endpoint: type
Feature with the entity id, the transformed properties and a zero-zero
placeholder point geometry. -/
structure PlaceholderFeature where
  id : JVal
  properties : List (String × JVal)
  geometry : Geometry
deriving DecidableEq

/-- The fixed table of simplestyle keys whose underscore form (the only
form SPARQL can produce) is remapped to the canonical hyphened form. -/
def simpleStyleProperties : List (String × String) :=
  [("fill_opacity", "fill-opacity"), ("marker_color", "marker-color"),
   ("marker_size", "marker-size"), ("marker_symbol", "marker-symbol"),
   ("stroke_opacity", "stroke-opacity"), ("stroke_width", "stroke-width")]

/-- The canonical form of a property key: its simplestyle remap when the
table has it, the key itself otherwise. -/
def remapKey (k : String) : String :=
  (jlookup simpleStyleProperties k).getD k

/-- One step of the property transformation of the sanitizer: a truthy
value is stored under the remapped key after value normalization, a
falsy value is dropped. -/
def transformStep (acc : List (String × JVal)) (kv : String × JVal) :
    List (String × JVal) :=
  if truthy kv.2 then setKey acc (remapKey kv.1) (parseWikidataValue kv.2) else acc

/-- The transformed property object of one raw row. -/
def transformProps (prop : List (String × JVal)) : List (String × JVal) :=
  prop.foldl transformStep []

/-- The placeholder feature built from one raw property row: the id
column becomes the feature id, the non-id columns are transformed, and
the geometry is the zero-zero placeholder point. -/
def mkPlaceholder (row : List (String × JVal)) : PlaceholderFeature :=
  { id := (jlookup row "id").getD .undef,
    properties := transformProps (eraseKey row "id"),
    geometry := .point (JVal.coord 0 0) }

/-- The sanitizer up to the network call, from the source: none models
the undefined returned for an empty constructed row set before any
request is issued; some carries the placeholder features to be posted. -/
def expandPropertiesLocal (rawProperties : List (List (String × JVal))) :
    Option (List PlaceholderFeature) :=
  let props := rawProperties.map mkPlaceholder
  if props.isEmpty then none else some props

theorem mem_keys_setKey {α : Type} (l : List (String × α)) (k a : String) (v : α) :
    a ∈ (setKey l k v).map Prod.fst ↔ a = k ∨ a ∈ l.map Prod.fst := by
  induction l with
  | nil => simp [setKey]
  | cons kv rest ih =>
    rw [show kv = (kv.1, kv.2) from rfl, setKey]
    by_cases h : kv.1 = k
    · subst h
      rw [if_pos rfl]
      simp only [List.map_cons, List.mem_cons]
      tauto
    · rw [if_neg h]
      simp only [List.map_cons, List.mem_cons]
      rw [ih]
      tauto

theorem transformProps_keys_aux (prop : List (String × JVal)) :
    ∀ (acc : List (String × JVal)) (a : String),
      a ∈ (prop.foldl transformStep acc).map Prod.fst →
      a ∈ acc.map Prod.fst ∨ ∃ kv ∈ prop, truthy kv.2 = true ∧ a = remapKey kv.1 := by
  induction prop with
  | nil => intro acc a h; exact Or.inl h
  | cons kv rest ih =>
    intro acc a h
    rw [List.foldl_cons] at h
    rcases ih _ a h with h1 | ⟨kv2, hkv2, ht2, ha2⟩
    · rw [transformStep] at h1
      by_cases htr : truthy kv.2
      · rw [if_pos htr] at h1
        rcases (mem_keys_setKey _ _ _ _).mp h1 with h2 | h2
        · exact Or.inr ⟨kv, List.mem_cons_self _ _, htr, h2⟩
        · exact Or.inl h2
      · rw [if_neg htr] at h1
        exact Or.inl h1
    · exact Or.inr ⟨kv2, List.mem_cons_of_mem _ hkv2, ht2, ha2⟩

theorem transformProps_keys (prop : List (String × JVal)) (a : String)
    (h : a ∈ (transformProps prop).map Prod.fst) :
    ∃ kv ∈ prop, truthy kv.2 = true ∧ a = remapKey kv.1 := by
  rcases transformProps_keys_aux prop [] a h with h1 | h1
  · simp at h1
  · exact h1

theorem transformProps_all_falsy_aux (prop : List (String × JVal)) :
    ∀ acc, (∀ kv ∈ prop, truthy kv.2 = false) →
      prop.foldl transformStep acc = acc := by
  induction prop with
  | nil => intro acc _; rfl
  | cons kv rest ih =>
    intro acc h
    rw [List.foldl_cons, transformStep,
      if_neg (by simp [h kv (List.mem_cons_self _ _)])]
    exact ih acc (fun kv2 hkv2 => h kv2 (List.mem_cons_of_mem _ hkv2))

/-- C9: the sanitizer builds exactly one placeholder feature per raw
property row and returns undefined, with no request at all, when the row
set is empty; each placeholder carries the transformed non-id columns
under a zero-zero placeholder point; every produced key is the canonical
remap of some truthy input column, rows of only falsy values produce no
properties, each simplestyle underscore key remaps to its hyphened form
and every other key stays itself. -/
theorem expandProperties_placeholders (rows : List (List (String × JVal))) :
    (expandPropertiesLocal [] = none) ∧
    (rows ≠ [] → expandPropertiesLocal rows = some (rows.map mkPlaceholder)) ∧
    (∀ row, mkPlaceholder row =
      { id := (jlookup row "id").getD .undef,
        properties := transformProps (eraseKey row "id"),
        geometry := .point (JVal.coord 0 0) }) ∧
    (∀ prop a, a ∈ (transformProps prop).map Prod.fst →
      ∃ kv ∈ prop, truthy kv.2 = true ∧ a = remapKey kv.1) ∧
    (∀ prop, (∀ kv ∈ prop, truthy kv.2 = false) → transformProps prop = []) ∧
    remapKey "marker_color" = "marker-color" ∧
    remapKey "fill_opacity" = "fill-opacity" ∧
    remapKey "marker_size" = "marker-size" ∧
    remapKey "marker_symbol" = "marker-symbol" ∧
    remapKey "stroke_opacity" = "stroke-opacity" ∧
    remapKey "stroke_width" = "stroke-width" ∧
    remapKey "name" = "name" := by
  refine ⟨rfl, ?_, fun row => rfl, transformProps_keys, ?_, by decide, by decide,
    by decide, by decide, by decide, by decide, by decide⟩
  · intro h
    cases rows with
    | nil => exact absurd rfl h
    | cons r rest => rfl
  · intro prop h
    exact transformProps_all_falsy_aux prop [] h

theorem expandProperties_placeholders_witness :
    expandPropertiesLocal [[("id", JVal.str "Q1"),
        ("marker_color", JVal.wdObj "literal" "ff0000"), ("note", JVal.str "")]] =
      some ([[("id", JVal.str "Q1"),
        ("marker_color", JVal.wdObj "literal" "ff0000"),
        ("note", JVal.str "")]].map mkPlaceholder) ∧
    ∃ kv ∈ [("marker_color", JVal.wdObj "literal" "ff0000"), ("note", JVal.str "")],
      truthy kv.2 = true ∧ "marker-color" = remapKey kv.1 :=
  ⟨(expandProperties_placeholders _).2.1 (by decide),
   (expandProperties_placeholders []).2.2.2.1
     [("marker_color", JVal.wdObj "literal" "ff0000"), ("note", JVal.str "")]
     "marker-color" (by decide)⟩

/-- A geometry row retrieved from the spatial store: entity id and the
serialized geometry. -/
structure GeoRow where
  id : String
  data : String
deriving DecidableEq

/-- A clean property row: the sanitized properties plus the entity id
under the id key. -/
abbrev CleanRow := List (String × JVal)

/-- An output feature of the assembler. -/
structure Feature where
  id : JVal
  properties : List (String × JVal)
  geometry : Geometry
deriving DecidableEq

/-- Whether a clean property row currently carries the given entity id:
strict equality of its id property against the geometry-row id. -/
def hasId (g : String) (p : CleanRow) : Bool :=
  jlookup p "id" == some (JVal.str g)

/-- The find-and-mutate at the heart of the assembler join: locate the
first clean row with the given id and delete its id key in place,
returning the row found and the updated row set. -/
def mutateFirst (g : String) : List CleanRow → Option CleanRow × List CleanRow
  | [] => (none, [])
  | p :: rest =>
    if hasId g p then (some p, eraseKey p "id" :: rest)
    else
      let r := mutateFirst g rest
      (r.1, p :: r.2)

/-- The line and polygon branch of the assembler: one feature per
geometry row in order, whose properties are the first clean row with
matching id (its id key deleted in place) or empty when none matches,
and whose geometry is the parsed row data; the mutated clean row set is
threaded through the traversal. -/
def shapeFeatures : List GeoRow → List CleanRow → List Feature × List CleanRow
  | [], props => ([], props)
  | row :: rest, props =>
    let m := mutateFirst row.id props
    let fprops := match m.1 with
                  | some wd => eraseKey wd "id"
                  | none => ([] : List (String × JVal))
    let r := shapeFeatures rest m.2
    ({ id := JVal.str row.id, properties := fprops,
       geometry := .parsedJson row.data } :: r.1, r.2)

/-- The point branch of the assembler acting on one clean row, in source
order: read the id property, delete the configured id column key, delete
the id key, read the coordinate column, delete it, and wrap the
remainder as the properties of a point feature. -/
def pointFeature (idKey : String) (value : CleanRow) : Feature :=
  { id := (jlookup value "id").getD .undef,
    properties := eraseKey (eraseKey (eraseKey value idKey) "id") "geo",
    geometry := .point ((jlookup (eraseKey (eraseKey value idKey) "id") "geo").getD
      .undef) }

/-- The assembler: the point branch applies when the kind is geopoint
and a clean row set exists (a JavaScript array is truthy even when
empty; an absent set is not); otherwise each geometry row becomes a
feature.  The configured id column is the raw request value; its
JavaScript string coercion when absent is the text undefined. -/
def wrapFeatures (type : String) (idColumn : Option String) (rows : List GeoRow)
    (properties : Option (List CleanRow)) : List Feature :=
  if type == "geopoint" && properties.isSome then
    (properties.getD []).map (pointFeature (idColumn.getD "undefined"))
  else
    (shapeFeatures rows (properties.getD [])).1

/-- The reference join of the spec, without mutation: the first clean
row carrying the id of the geometry row, its id removed, or no
properties. -/
def pureShapeFeature (props : List CleanRow) (row : GeoRow) : Feature :=
  { id := JVal.str row.id,
    properties := match props.find? (hasId row.id) with
                  | some wd => eraseKey wd "id"
                  | none => [],
    geometry := .parsedJson row.data }

theorem mutateFirst_fst (g : String) (l : List CleanRow) :
    (mutateFirst g l).1 = l.find? (hasId g) := by
  induction l with
  | nil => rfl
  | cons p rest ih =>
    rw [mutateFirst]
    by_cases h : hasId g p
    · rw [if_pos h, List.find?_cons_of_pos _ h]
    · rw [if_neg h, List.find?_cons_of_neg _ h]
      exact ih

/-- How a clean row in the threaded state may differ from its original:
unchanged, or with its id key deleted after matching one of the
already-processed geometry ids. -/
def Shadow (avoid : List String) (p0 p : CleanRow) : Prop :=
  p = p0 ∨ (∃ g ∈ avoid, hasId g p0 = true ∧ p = eraseKey p0 "id")

theorem Shadow.mono {avoid : List String} {g : String} {p0 p : CleanRow}
    (h : Shadow avoid p0 p) : Shadow (g :: avoid) p0 p := by
  rcases h with h | ⟨g2, hg2, hh, hp⟩
  · exact Or.inl h
  · exact Or.inr ⟨g2, List.mem_cons_of_mem _ hg2, hh, hp⟩

theorem Shadow.hasId_eq {avoid : List String} {g : String} {p0 p : CleanRow}
    (h : Shadow avoid p0 p) (hg : g ∉ avoid) : hasId g p = hasId g p0 := by
  rcases h with h | ⟨g2, hg2, hh, hp⟩
  · rw [h]
  · subst hp
    have h1 : hasId g (eraseKey p0 "id") = false := by
      rw [hasId, jlookup_eraseKey_self]
      rfl
    have h2 : hasId g p0 = false := by
      have hlook : jlookup p0 "id" = some (JVal.str g2) := by
        rw [hasId] at hh
        simpa using hh
      have hne : g2 ≠ g := fun he => hg (he ▸ hg2)
      rw [hasId, hlook]
      simp [hne]
    rw [h1, h2]

theorem Shadow.eq_of_hasId {avoid : List String} {g : String} {p0 p : CleanRow}
    (h : Shadow avoid p0 p) (_hg : g ∉ avoid) (ht : hasId g p = true) : p = p0 := by
  rcases h with h | ⟨g2, hg2, hh, hp⟩
  · exact h
  · subst hp
    rw [hasId, jlookup_eraseKey_self] at ht
    simp at ht

theorem find_transport {avoid : List String} {g : String}
    {l0 l : List CleanRow} (h : List.Forall₂ (Shadow avoid) l0 l)
    (hg : g ∉ avoid) : l.find? (hasId g) = l0.find? (hasId g) := by
  induction h with
  | nil => rfl
  | @cons p0 p l0r lr hpair hrest ih =>
    have heq := Shadow.hasId_eq hpair hg
    by_cases hp : hasId g p
    · have hp0 : hasId g p0 = true := heq ▸ hp
      rw [List.find?_cons_of_pos _ hp, List.find?_cons_of_pos _ hp0,
        Shadow.eq_of_hasId hpair hg hp]
    · have hp0 : ¬ hasId g p0 = true := by
        rw [← heq]
        exact hp
      rw [List.find?_cons_of_neg _ hp, List.find?_cons_of_neg _ hp0]
      exact ih

theorem mutateFirst_shadow {avoid : List String} {g : String}
    {l0 l : List CleanRow} (h : List.Forall₂ (Shadow avoid) l0 l)
    (hg : g ∉ avoid) :
    List.Forall₂ (Shadow (g :: avoid)) l0 (mutateFirst g l).2 := by
  induction h with
  | nil => exact List.Forall₂.nil
  | @cons p0 p l0r lr hpair hrest ih =>
    rw [mutateFirst]
    by_cases hp : hasId g p
    · rw [if_pos hp]
      have hpeq : p = p0 := Shadow.eq_of_hasId hpair hg hp
      refine List.Forall₂.cons ?_ (hrest.imp (fun _ _ hh => Shadow.mono hh))
      exact Or.inr ⟨g, List.mem_cons_self _ _, hpeq ▸ hp, by rw [hpeq]⟩
    · rw [if_neg hp]
      exact List.Forall₂.cons (Shadow.mono hpair) ih

theorem shapeFeatures_pure_aux :
    ∀ (rows : List GeoRow) {avoid : List String} {props0 props : List CleanRow},
      List.Forall₂ (Shadow avoid) props0 props →
      (∀ r ∈ rows, r.id ∉ avoid) →
      (rows.map GeoRow.id).Nodup →
      (shapeFeatures rows props).1 = rows.map (pureShapeFeature props0) := by
  intro rows
  induction rows with
  | nil => intro avoid props0 props _ _ _; rfl
  | cons row rest ih =>
    intro avoid props0 props hrel hdisj hnd
    have hgnotin : row.id ∉ avoid := hdisj row (List.mem_cons_self _ _)
    have hfind : (mutateFirst row.id props).1 = props0.find? (hasId row.id) := by
      rw [mutateFirst_fst]
      exact find_transport hrel hgnotin
    have hrel2 : List.Forall₂ (Shadow (row.id :: avoid)) props0
        (mutateFirst row.id props).2 := mutateFirst_shadow hrel hgnotin
    rw [List.map_cons] at hnd
    have hndc := List.nodup_cons.mp hnd
    have hdisj2 : ∀ r ∈ rest, r.id ∉ row.id :: avoid := by
      intro r hr hmem
      rcases List.mem_cons.mp hmem with h | h
      · exact hndc.1 (by rw [← h]; exact List.mem_map_of_mem GeoRow.id hr)
      · exact hdisj r (List.mem_cons_of_mem _ hr) h
    simp only [shapeFeatures, List.map_cons]
    refine congrArg₂ List.cons ?_ ?_
    · rw [pureShapeFeature, hfind]
    · exact ih hrel2 hdisj2 hndc.2

theorem shapeFeatures_nil_props (rows : List GeoRow) :
    (shapeFeatures rows []).1 = rows.map (pureShapeFeature []) := by
  induction rows with
  | nil => rfl
  | cons row rest ih =>
    show _ :: (shapeFeatures rest []).1 =
      pureShapeFeature [] row :: rest.map (pureShapeFeature [])
    rw [ih]
    rfl

/-- One geometry object of an encoded topology: the feature id, the
properties the property-transform selects, and the geometry (the
shared-arc encoding is abstracted away; the claims concern properties
and counts). -/
structure TopoObject where
  id : JVal
  properties : List (String × JVal)
  geometry : Geometry
deriving DecidableEq

/-- Modelled from the spec: the external topology encoder (the topojson
library, not part of this repository) re-encodes a feature collection
object by object, attaching to each object exactly the properties its
property-transform returns for the corresponding feature. -/
def topologyEncode (propertyTransform : Feature → List (String × JVal))
    (features : List Feature) : List TopoObject :=
  features.map (fun f =>
    { id := f.id, properties := propertyTransform f, geometry := f.geometry })

/-- Modelled from the spec: decoding a topology recovers one feature per
geometry object, carrying the object properties. -/
def topologyDecode (objects : List TopoObject) : List Feature :=
  objects.map (fun o =>
    { id := o.id, properties := o.properties, geometry := o.geometry })

/-- A produced result document: flat feature collection or topology. -/
inductive ResultDoc where
  | featureCollection (features : List Feature)
  | topology (objects : List TopoObject)
deriving DecidableEq

/-- The format encoder of the source: wrap the assembled features as a
collection; when flat output was not requested, re-encode as a topology
whose property-transform is the identity projection onto the feature
properties. -/
def wrapResult (type : String) (idColumn : Option String) (rows : List GeoRow)
    (properties : Option (List CleanRow)) (useGeoJson : Bool) : ResultDoc :=
  let features := wrapFeatures type idColumn rows properties
  if !useGeoJson then
    .topology (topologyEncode (fun f => f.properties) features)
  else
    .featureCollection features

/-- C4: with flat output requested the encoder returns exactly the
feature collection holding the assembled list unmodified; otherwise it
topology-encodes with the identity projection onto properties, and the
encode-decode round trip of that topology returns the feature list
itself, so every property set and the feature count are preserved. -/
theorem wrapResult_format_encoding (type : String) (idColumn : Option String)
    (rows : List GeoRow) (properties : Option (List CleanRow)) :
    wrapResult type idColumn rows properties true =
      .featureCollection (wrapFeatures type idColumn rows properties) ∧
    wrapResult type idColumn rows properties false =
      .topology (topologyEncode (fun f => f.properties)
        (wrapFeatures type idColumn rows properties)) ∧
    (∀ features : List Feature,
      topologyDecode (topologyEncode (fun f => f.properties) features) = features ∧
      (topologyEncode (fun f => f.properties) features).map TopoObject.properties =
        features.map Feature.properties ∧
      (topologyEncode (fun f => f.properties) features).length = features.length) := by
  refine ⟨rfl, rfl, ?_⟩
  intro features
  refine ⟨?_, ?_, ?_⟩
  · induction features with
    | nil => rfl
    | cons f rest ih =>
      show _ :: topologyDecode (topologyEncode _ rest) = f :: rest
      rw [ih]
  · induction features with
    | nil => rfl
    | cons f rest ih =>
      show f.properties :: (topologyEncode _ rest).map TopoObject.properties =
        f.properties :: rest.map Feature.properties
      rw [ih]
  · simp [topologyEncode]

/-- C3 counterexample: two geometry rows with the same id and one
matching clean row.  The second feature has empty properties even
though a clean row with its id exists in the input, whose id-less form
is nonempty — the claim as stated predicts those properties for every
geometry row. -/
theorem wrapResult_assembly_counterexample :
    ((wrapFeatures "geoshape" none [⟨"Q1", "g1"⟩, ⟨"Q1", "g2"⟩]
        (some [[("id", JVal.str "Q1"), ("a", JVal.str "x")]])).get? 1).map
      Feature.properties = some [] ∧
    [[("id", JVal.str "Q1"), ("a", JVal.str "x")]].find? (hasId "Q1") =
      some [("id", JVal.str "Q1"), ("a", JVal.str "x")] ∧
    eraseKey [("id", JVal.str "Q1"), ("a", JVal.str "x")] "id" =
      [("a", JVal.str "x")] ∧
    some ([("a", JVal.str "x")] : List (String × JVal)) ≠
      some ([] : List (String × JVal)) := by
  decide

/-- C3 (amended): point assembly maps every clean row, in order, to one
feature whose geometry is the point in the geo column and whose
properties are the row minus the configured id column key, the id key
and the geo key, with no features at all when no clean row set exists;
line and polygon assembly — provided no two geometry rows share an
entity id — yields one feature per geometry row in order, carrying the
parsed row geometry and the properties of the first clean row with
matching id minus its id, empty when none matches and empty throughout
when no clean row set exists. -/
theorem wrapResult_assembly (type : String) (idCol : Option String)
    (props : List CleanRow) (rows : List GeoRow) :
    (wrapFeatures "geopoint" idCol rows (some props) =
      props.map (pointFeature (idCol.getD "undefined"))) ∧
    (∀ row, idCol.getD "undefined" ≠ "geo" →
      pointFeature (idCol.getD "undefined") row =
        { id := (jlookup row "id").getD .undef,
          properties := eraseKey (eraseKey (eraseKey row (idCol.getD "undefined"))
            "id") "geo",
          geometry := .point ((jlookup row "geo").getD .undef) }) ∧
    (wrapFeatures "geopoint" idCol [] none = []) ∧
    (type ≠ "geopoint" → (rows.map GeoRow.id).Nodup →
      wrapFeatures type idCol rows (some props) =
        rows.map (pureShapeFeature props)) ∧
    (type ≠ "geopoint" → wrapFeatures type idCol rows none =
      rows.map (pureShapeFeature [])) := by
  refine ⟨rfl, ?_, rfl, ?_, ?_⟩
  · intro row h
    have h1 : ("geo" : String) ≠ "id" := by decide
    have h2 : ("geo" : String) ≠ idCol.getD "undefined" := fun hh => h hh.symm
    rw [pointFeature, jlookup_eraseKey_ne _ _ _ h1, jlookup_eraseKey_ne _ _ _ h2]
  · intro htype hnd
    rw [wrapFeatures, if_neg (by simp [htype])]
    exact @shapeFeatures_pure_aux rows [] props props
      (List.forall₂_same.mpr (fun x _ => Or.inl rfl))
      (fun r _ => List.not_mem_nil r.id) hnd
  · intro htype
    rw [wrapFeatures, if_neg (by simp)]
    exact shapeFeatures_nil_props rows

theorem wrapResult_assembly_witness :
    (wrapFeatures "geopoint" none [] (some [[("id", JVal.str "Q1"),
        ("geo", JVal.coord 1 2), ("name", JVal.str "x")]]) =
      [[("id", JVal.str "Q1"), ("geo", JVal.coord 1 2),
        ("name", JVal.str "x")]].map (pointFeature "undefined")) ∧
    (pointFeature "undefined" [("id", JVal.str "Q1"), ("geo", JVal.coord 1 2),
        ("name", JVal.str "x")] =
      { id := (jlookup [("id", JVal.str "Q1"), ("geo", JVal.coord 1 2),
          ("name", JVal.str "x")] "id").getD .undef,
        properties := eraseKey (eraseKey (eraseKey [("id", JVal.str "Q1"),
          ("geo", JVal.coord 1 2), ("name", JVal.str "x")] "undefined") "id") "geo",
        geometry := .point ((jlookup [("id", JVal.str "Q1"),
          ("geo", JVal.coord 1 2), ("name", JVal.str "x")] "geo").getD .undef) }) ∧
    (wrapFeatures "geoline" none [⟨"Q2", "gd"⟩]
        (some [[("id", JVal.str "Q3"), ("b", JVal.str "y")]]) =
      [⟨"Q2", "gd"⟩].map (pureShapeFeature [[("id", JVal.str "Q3"),
        ("b", JVal.str "y")]])) :=
  ⟨(wrapResult_assembly "geopoint" none [[("id", JVal.str "Q1"),
      ("geo", JVal.coord 1 2), ("name", JVal.str "x")]] []).1,
   (wrapResult_assembly "geopoint" none [] []).2.1
     [("id", JVal.str "Q1"), ("geo", JVal.coord 1 2), ("name", JVal.str "x")]
     (by decide),
   (wrapResult_assembly "geoline" none [[("id", JVal.str "Q3"), ("b", JVal.str "y")]]
     [⟨"Q2", "gd"⟩]).2.2.2.1 (by decide) (by decide)⟩

theorem hasId_eraseKey_false (g : String) (p : CleanRow) :
    hasId g (eraseKey p "id") = false := by
  rw [hasId, jlookup_eraseKey_self]
  rfl

theorem mutateFirst_countP_le (g g2 : String) (l : List CleanRow) :
    (mutateFirst g l).2.countP (hasId g2) ≤ l.countP (hasId g2) := by
  induction l with
  | nil => exact Nat.le_refl _
  | cons p rest ih =>
    rw [mutateFirst]
    by_cases h : hasId g p
    · rw [if_pos h, List.countP_cons, List.countP_cons,
        hasId_eraseKey_false g2 p]
      simp only [Bool.false_eq_true, if_false]
      exact Nat.le_add_right_of_le (Nat.le_refl _)
    · rw [if_neg h]
      rw [List.countP_cons, List.countP_cons]
      exact Nat.add_le_add_right ih _

theorem mutateFirst_countP_self (g : String) (l : List CleanRow)
    (h : l.countP (hasId g) ≤ 1) :
    (mutateFirst g l).2.countP (hasId g) = 0 := by
  induction l with
  | nil => rfl
  | cons p rest ih =>
    rw [List.countP_cons] at h
    rw [mutateFirst]
    by_cases hp : hasId g p
    · rw [if_pos hp]
      rw [List.countP_cons, hasId_eraseKey_false g p]
      have hrest : rest.countP (hasId g) = 0 := by
        rw [if_pos hp] at h
        omega
      simp [hrest]
    · rw [if_neg hp]
      rw [List.countP_cons]
      have hle : rest.countP (hasId g) ≤ 1 := by
        rw [if_neg (by simp [hp])] at h
        omega
      simp [hp, ih hle]

theorem mutateFirst_countP_zero (g : String) (l : List CleanRow)
    (h : l.countP (hasId g) = 0) :
    (mutateFirst g l).1 = none ∧ (mutateFirst g l).2 = l := by
  induction l with
  | nil => exact ⟨rfl, rfl⟩
  | cons p rest ih =>
    rw [List.countP_cons] at h
    have hp : hasId g p = false := by
      by_cases hp : hasId g p
      · rw [if_pos hp] at h; omega
      · simpa using hp
    have hrest : rest.countP (hasId g) = 0 := by
      rw [if_neg (by simp [hp])] at h
      omega
    rw [mutateFirst, if_neg (by simp [hp])]
    obtain ⟨h1, h2⟩ := ih hrest
    refine ⟨h1, ?_⟩
    show p :: (mutateFirst g rest).2 = p :: rest
    rw [h2]

theorem shapeFeatures_zero_count (gid : String) :
    ∀ (rows : List GeoRow) (props : List CleanRow),
      props.countP (hasId gid) = 0 →
      ∀ j r, rows.get? j = some r → r.id = gid →
        ((shapeFeatures rows props).1.get? j).map Feature.properties = some [] := by
  intro rows
  induction rows with
  | nil =>
    intro props h0 j r hget
    simp at hget
  | cons row rest ih =>
    intro props h0 j r hget hrid
    cases j with
    | zero =>
      have hr : row = r := by simpa using hget
      have hfind : (mutateFirst row.id props).1 = none := by
        rw [hr, hrid]
        exact (mutateFirst_countP_zero gid props h0).1
      simp only [shapeFeatures, List.get?_cons_zero, Option.map_some]
      rw [hfind]
      rfl
    | succ j2 =>
      have hle := mutateFirst_countP_le row.id gid props
      have h02 : (mutateFirst row.id props).2.countP (hasId gid) = 0 := by
        omega
      simp only [shapeFeatures, List.get?_cons_succ]
      exact ih _ h02 j2 r (by simpa using hget) hrid

theorem shapeFeatures_first_match_only :
    ∀ (rows : List GeoRow) (props : List CleanRow),
      (∀ g, props.countP (hasId g) ≤ 1) →
      ∀ i j ri rj, i < j → rows.get? i = some ri → rows.get? j = some rj →
        ri.id = rj.id →
        ((shapeFeatures rows props).1.get? j).map Feature.properties = some [] := by
  intro rows
  induction rows with
  | nil =>
    intro props hc i j ri rj hij hgi hgj heq
    simp at hgi
  | cons row rest ih =>
    intro props hc i j ri rj hij hgi hgj heq
    cases i with
    | zero =>
      have hr : row = ri := by simpa using hgi
      cases j with
      | zero => omega
      | succ j2 =>
        have h0 : (mutateFirst row.id props).2.countP (hasId rj.id) = 0 := by
          have hm := mutateFirst_countP_self row.id props (hc row.id)
          rw [hr, heq] at hm
          rw [hr, heq]
          exact hm
        simp only [shapeFeatures, List.get?_cons_succ]
        exact shapeFeatures_zero_count rj.id rest _ h0 j2 rj (by simpa using hgj) rfl
    | succ i2 =>
      cases j with
      | zero => omega
      | succ j2 =>
        have hc2 : ∀ g, (mutateFirst row.id props).2.countP (hasId g) ≤ 1 :=
          fun g => Nat.le_trans (mutateFirst_countP_le row.id g props) (hc g)
        simp only [shapeFeatures, List.get?_cons_succ]
        exact ih _ hc2 i2 j2 ri rj (by omega) (by simpa using hgi)
          (by simpa using hgj) heq

/-- C10 counterexample: two geometry rows with id Q1 and two clean rows
both carrying id Q1.  The mutation only strips the id from the first
clean row, so the second geometry row still finds the second clean row:
its feature receives nonempty properties, against the claim that every
later feature with a duplicated id has empty properties. -/
theorem shape_join_mutation_counterexample :
    ((wrapFeatures "geoshape" none [⟨"Q1", "g1"⟩, ⟨"Q1", "g2"⟩]
        (some [[("id", JVal.str "Q1"), ("a", JVal.str "x")],
               [("id", JVal.str "Q1"), ("b", JVal.str "y")]])).get? 1).map
      Feature.properties = some [("b", JVal.str "y")] ∧
    some ([("b", JVal.str "y")] : List (String × JVal)) ≠
      some ([] : List (String × JVal)) := by
  decide

/-- C10 (amended): the join takes the first clean row whose position in
the threaded row set precedes any other match, hands the feature that
same row with the id key deleted, and records the deletion in the row
set; provided the clean rows carry pairwise distinct ids (at most one
row per id), whenever two geometry rows share an entity id every
feature after the first with that id has empty properties. -/
theorem shape_join_mutation (rows : List GeoRow) (props : List CleanRow)
    (hc : ∀ g, props.countP (hasId g) ≤ 1) :
    (∀ i j ri rj, i < j → rows.get? i = some ri → rows.get? j = some rj →
      ri.id = rj.id →
      ((shapeFeatures rows props).1.get? j).map Feature.properties = some []) ∧
    (∀ g l1 wd l2, props = l1 ++ wd :: l2 → (∀ p ∈ l1, hasId g p = false) →
      hasId g wd = true →
      mutateFirst g props = (some wd, l1 ++ eraseKey wd "id" :: l2)) := by
  refine ⟨shapeFeatures_first_match_only rows props hc, ?_⟩
  intro g l1 wd l2 heq hl1 hwd
  subst heq
  clear hc
  induction l1 with
  | nil => simp [mutateFirst, hwd]
  | cons p l1r ih =>
    have hp : hasId g p = false := hl1 p (List.mem_cons_self _ _)
    rw [List.cons_append, mutateFirst, if_neg (by simp [hp])]
    rw [ih (fun p2 hp2 => hl1 p2 (List.mem_cons_of_mem _ hp2))]
    rfl

theorem shape_join_mutation_witness :
    ((shapeFeatures [⟨"Q1", "g1"⟩, ⟨"Q1", "g2"⟩]
        [[("id", JVal.str "Q1"), ("a", JVal.str "x")]]).1.get? 1).map
      Feature.properties = some [] ∧
    mutateFirst "Q1" [[("id", JVal.str "Q1"), ("a", JVal.str "x")]] =
      (some [("id", JVal.str "Q1"), ("a", JVal.str "x")],
       [eraseKey [("id", JVal.str "Q1"), ("a", JVal.str "x")] "id"]) :=
  ⟨(shape_join_mutation [⟨"Q1", "g1"⟩, ⟨"Q1", "g2"⟩]
      [[("id", JVal.str "Q1"), ("a", JVal.str "x")]]
      (fun g => Nat.le_trans (List.countP_le_length _) (by decide))).1
      0 1 ⟨"Q1", "g1"⟩ ⟨"Q1", "g2"⟩ (by decide) (by decide) (by decide) rfl,
   (shape_join_mutation [] [[("id", JVal.str "Q1"), ("a", JVal.str "x")]]
      (fun g => Nat.le_trans (List.countP_le_length _) (by decide))).2
      "Q1" [] [("id", JVal.str "Q1"), ("a", JVal.str "x")] [] rfl
      (fun p hp => absurd hp (List.not_mem_nil p)) (by decide)⟩
